import Mathlib

set_option maxHeartbeats 1000000
set_option maxRecDepth 4000

/-!
# Verification of the jansson ring buffer (`src/ringbuffer.c`)

Shallow embedding of the growable circular buffer in `src/ringbuffer.c`.

Modelling conventions:
* `json_t *` values are modelled as `Option Nat`: a live slot holds `some v`
  (the identity of the owned reference), while `none` stands for a slot whose
  content is indeterminate from the buffer's point of view (uninitialized
  storage, or storage released by a shrinking `realloc`).  Reading such a slot
  in C yields an indeterminate pointer; the model yields `none`.
* The backing array `buffer` is a `List (Option Nat)` whose length is the
  currently allocated slot count.  `buffer == NULL` in C corresponds to the
  empty list: the code allocates only through `ringbuffer_resize`, which never
  allocates fewer than `RINGBUFFER_MIN_BUFFER_SIZE` slots, so an allocated
  buffer is never empty.
* A read outside the allocation (C undefined behaviour: reading freed or
  out-of-bounds memory) yields `none`; a write outside the allocation
  (C undefined behaviour: heap corruption) does not change any slot the
  buffer itself can later read, so it is dropped (`List.set` out of range).
* `size_t` arithmetic is `Nat`; the one subtraction the code performs that can
  underflow on well-formed states (`newSize - buffer_size` while shrinking) is
  modelled by `sizeSub`, which wraps modulo `2 ^ 64` exactly as `size_t` does.
* The allocator (`jsonp_malloc` / `jsonp_realloc`) is modelled by a boolean
  `ok`: `true` means every allocation during the call succeeds, `false` means
  every allocation during the call fails.  `realloc` preserves the prefix of
  the old block that fits in the new one; freshly exposed slots are
  indeterminate (`none`); on failure the original buffer is left intact.
* `json_decref` only affects reference counts, which the buffer never reads
  back; the slot content is not cleared by the C code, so the model leaves the
  slot unchanged where the code calls `json_decref`.
* The loops in `ringbuffer_move` (C `do/while`) are modelled with explicit
  fuel; `none` is returned when the fuel is exhausted, which only happens when
  the C loop fails to terminate.  Operations that call the move primitive
  therefore return `Option` results.
-/

namespace RingbufferModel

/-- `size_t` subtraction: ordinary truncated subtraction when it does not
underflow, two's-complement wraparound modulo `2 ^ 64` when it does. -/
def sizeSub (a b : Nat) : Nat :=
  if b ≤ a then a - b else (a + 2 ^ 64 - b) % 2 ^ 64

/-- The `ringbuffer_t` struct of `ringbuffer.h`: allocated slot count,
physical index of virtual index 0, number of live elements, and the
backing storage. -/
structure ringbuffer_t where
  buffer_size : Nat
  start : Nat
  elementCount : Nat
  buffer : List (Option Nat)
deriving DecidableEq

/-- `#define RINGBUFFER_MIN_BUFFER_SIZE 8` -/
def RINGBUFFER_MIN_BUFFER_SIZE : Nat := 8

/-- C `memmove` over `count` pointer slots: copies slots `[src, src+count)`
to `[dst, dst+count)`, reading all sources from the pre-call buffer
(memmove copes with overlap as if through a temporary buffer).  Reads
outside the allocation give `none`; writes outside it are dropped. -/
def memmove (b : List (Option Nat)) (dst src n : Nat) : List (Option Nat) :=
  (List.range n).foldl (fun acc k => acc.set (dst + k) (b.getD (src + k) none)) b

/-- `ringbuffer_init` -/
def ringbuffer_init : ringbuffer_t :=
  { buffer_size := 0, start := 0, elementCount := 0, buffer := [] }

/-- `ringbuffer_clear`: releases every live element (reference-count effect
only), frees the storage and resets all fields. -/
def ringbuffer_clear (_rb : ringbuffer_t) : ringbuffer_t :=
  ringbuffer_init

/-- `ringbuffer_close` -/
def ringbuffer_close (rb : ringbuffer_t) : ringbuffer_t :=
  ringbuffer_clear rb

/-- `ringbuffer_get` -/
def ringbuffer_get (rb : ringbuffer_t) (index : Nat) : Option Nat :=
  if rb.elementCount ≤ index then none
  else rb.buffer.getD ((rb.start + index) % rb.buffer_size) none

/-- `ringbuffer_set`.  Returns the C result, the new buffer state, and the
list of references released by `json_decref` during the call. -/
def ringbuffer_set (rb : ringbuffer_t) (index : Nat) (value : Option Nat) :
    Int × ringbuffer_t × List (Option Nat) :=
  if rb.elementCount ≤ index then (-1, rb, [])
  else
    let p := (rb.start + index) % rb.buffer_size
    (0, { rb with buffer := rb.buffer.set p value }, [rb.buffer.getD p none])

/-- Forward copy loop of `ringbuffer_move` (the `dest < src` branch):
`posRead`/`posWrite` are physical indices, `size`/`st` the buffer size and
start used by the wrap resets.  One fuel unit allows one further loop
iteration beyond the first; `none` means the fuel ran out (the C loop would
still be running). -/
def moveFwd (st size : Nat) : Nat → List (Option Nat) → Nat → Nat → Nat →
    Option (List (Option Nat))
  | fuel, b, posRead, posWrite, count =>
    let read_count := size - posRead
    let write_count := size - posWrite
    let resulting_count := min (min read_count write_count) count
    let b2 := memmove b posWrite posRead resulting_count
    let posWrite2 :=
      if posWrite + resulting_count = size then st % size
      else posWrite + resulting_count
    let posRead2 :=
      if posRead + resulting_count = size then st % size
      else posRead + resulting_count
    if count - resulting_count = 0 then some b2
    else
      match fuel with
      | 0 => none
      | fuel + 1 => moveFwd st size fuel b2 posRead2 posWrite2 (count - resulting_count)

/-- Backward copy loop of `ringbuffer_move` (the `dest >= src` branch).
`posRead`/`posWrite` are the physical indices the C pointers hold; the C
code passes those very pointers to `memmove`, so each block copy starts at
them and runs upward, exactly as modelled here. -/
def moveBwd (st size : Nat) : Nat → List (Option Nat) → Nat → Nat → Nat →
    Option (List (Option Nat))
  | fuel, b, posRead, posWrite, count =>
    let read_count := posRead
    let write_count := posWrite
    let resulting_count := min (min read_count write_count) count
    let b2 := memmove b posWrite posRead resulting_count
    let posWrite2 :=
      if posWrite - resulting_count = 0 then (st + size - 1) % size
      else posWrite - resulting_count
    let posRead2 :=
      if posRead - resulting_count = 0 then (st + size - 1) % size
      else posRead - resulting_count
    if count - resulting_count = 0 then some b2
    else
      match fuel with
      | 0 => none
      | fuel + 1 => moveBwd st size fuel b2 posRead2 posWrite2 (count - resulting_count)

/-- `ringbuffer_move`: relocate `count` elements from virtual offset `src`
to virtual offset `dest`.  The fuel bounds the number of loop iterations;
any terminating run of the C loop performs at most `count` productive
iterations plus a handful of zero-progress pointer resets, so the fuel
below is never the reason a terminating run is cut off. -/
def ringbuffer_move (rb : ringbuffer_t) (dest src count : Nat) :
    Option ringbuffer_t :=
  let fuel := 2 * count + 2 * rb.buffer_size + 4
  if dest < src then
    (moveFwd rb.start rb.buffer_size fuel rb.buffer
        ((rb.start + src) % rb.buffer_size)
        ((rb.start + dest) % rb.buffer_size) count).map
      (fun b2 => { rb with buffer := b2 })
  else
    let dest2 := dest + count - 1
    let src2 := src + count - 1
    (moveBwd rb.start rb.buffer_size fuel rb.buffer
        ((rb.start + src2) % rb.buffer_size)
        ((rb.start + dest2) % rb.buffer_size) count).map
      (fun b2 => { rb with buffer := b2 })

/-- `jsonp_realloc` on success: the prefix of the old block that fits is
preserved, slots beyond the old length are indeterminate. -/
def reallocKeepPrefix (b : List (Option Nat)) (newSize : Nat) : List (Option Nat) :=
  b.take newSize ++ List.replicate (newSize - b.length) none

/-- Lines 153–175 of `ringbuffer.c`: the relocation performed when the live
range wraps the physical end of storage, operating on the already
reallocated buffer `b` while `size`/`start`/`count` still describe the old
layout.  Returns the new buffer and the new `start`. -/
def relocateWrapped (b : List (Option Nat)) (size start count newSize : Nat) :
    List (Option Nat) × Nat :=
  let upperBlockSize := size - start
  let lowerBlockSize := (start + count) % size
  if upperBlockSize < lowerBlockSize then
    (memmove b (newSize - upperBlockSize) (size - upperBlockSize) upperBlockSize,
      newSize - upperBlockSize)
  else
    let newSpaceGrowth := sizeSub newSize size
    if lowerBlockSize > newSpaceGrowth then
      (memmove (memmove b size 0 newSpaceGrowth) 0 newSpaceGrowth
          (lowerBlockSize - newSpaceGrowth), start)
    else
      (memmove b size 0 lowerBlockSize, start)

/-- Lines 126–128 of `ringbuffer.c`: clamp the requested size up to
`RINGBUFFER_MIN_BUFFER_SIZE`. -/
def clampMin (n : Nat) : Nat :=
  if n < RINGBUFFER_MIN_BUFFER_SIZE then RINGBUFFER_MIN_BUFFER_SIZE else n

/-- `ringbuffer_resize` -/
def ringbuffer_resize (ok : Bool) (rb : ringbuffer_t) (newSize0 : Nat) :
    Int × ringbuffer_t :=
  let newSize := clampMin newSize0
  if rb.buffer = [] then
    if ok then
      (0, { rb with buffer := List.replicate newSize none, buffer_size := newSize })
    else (-1, rb)
  else if newSize < rb.elementCount then (-1, rb)
  else if ok then
    let b1 := reallocKeepPrefix rb.buffer newSize
    if rb.start > sizeSub rb.buffer_size rb.elementCount then
      let p := relocateWrapped b1 rb.buffer_size rb.start rb.elementCount newSize
      (0, { rb with buffer := p.1, start := p.2, buffer_size := newSize })
    else
      (0, { rb with buffer := b1, buffer_size := newSize })
  else (-1, rb)

/-- Lines 192–207 of `ringbuffer.c`: the placement part of
`ringbuffer_insert`, after the range check and the full-buffer resize have
been passed. -/
def insertPlace (rb1 : ringbuffer_t) (index : Nat) (value : Option Nat) :
    Option (Int × ringbuffer_t) :=
  if index = rb1.elementCount then
    some (0, { rb1 with
      buffer := rb1.buffer.set
        ((rb1.start + rb1.elementCount) % rb1.buffer_size) value,
      elementCount := rb1.elementCount + 1 })
  else if index = 0 then
    let st := (rb1.start + rb1.buffer_size - 1) % rb1.buffer_size
    some (0, { rb1 with
      start := st,
      buffer := rb1.buffer.set st value,
      elementCount := rb1.elementCount + 1 })
  else if index ≤ rb1.elementCount / 2 then
    let rb2 := { rb1 with
      start := (rb1.start + rb1.buffer_size - 1) % rb1.buffer_size }
    (ringbuffer_move rb2 0 1 index).map (fun rb3 =>
      (0, { rb3 with
        buffer := rb3.buffer.set ((rb3.start + index) % rb3.buffer_size) value,
        elementCount := rb3.elementCount + 1 }))
  else
    (ringbuffer_move rb1 (index + 1) index (rb1.elementCount - index)).map
      (fun rb3 =>
        (0, { rb3 with
          buffer := rb3.buffer.set ((rb3.start + index) % rb3.buffer_size) value,
          elementCount := rb3.elementCount + 1 }))

/-- `ringbuffer_insert` -/
def ringbuffer_insert (ok : Bool) (rb : ringbuffer_t) (index : Nat)
    (value : Option Nat) : Option (Int × ringbuffer_t) :=
  if rb.elementCount < index then some (-1, rb)
  else
    match
      (if rb.elementCount = rb.buffer_size then
        ringbuffer_resize ok rb (rb.buffer_size * 2)
      else (0, rb)) with
    | (r, rb1) =>
      if r = 0 then insertPlace rb1 index value
      else some (-1, rb1)

/-- `ringbuffer_append` -/
def ringbuffer_append (ok : Bool) (rb : ringbuffer_t) (value : Option Nat) :
    Option (Int × ringbuffer_t) :=
  ringbuffer_insert ok rb rb.elementCount value

/-- `ringbuffer_del` -/
def ringbuffer_del (ok : Bool) (rb : ringbuffer_t) (index : Nat) :
    Option (Int × ringbuffer_t) :=
  if rb.elementCount ≤ index then some (-1, rb)
  else
    -- json_decref(buffer[(start + index) % buffer_size]): the release only
    -- touches the reference count, the slot content stays in memory.
    let step : Option ringbuffer_t :=
      if index = rb.elementCount - 1 then some rb
      else if index = 0 then
        some { rb with start := (rb.start + 1) % rb.buffer_size }
      else if index < rb.elementCount / 2 then
        (ringbuffer_move rb 1 0 index).map (fun rb2 =>
          { rb2 with start := (rb2.start + 1) % rb2.buffer_size })
      else ringbuffer_move rb index (index + 1) (rb.elementCount - index)
    step.map (fun rb2 =>
      let rb3 := { rb2 with elementCount := rb2.elementCount - 1 }
      if rb3.elementCount < rb3.buffer_size / 8 then
        -- return value of the shrinking resize is discarded by the C code
        (0, (ringbuffer_resize ok rb3 (rb3.buffer_size / 2)).2)
      else (0, rb3))

/-- The `for` loop of `ringbuffer_append_ringbuffer`, for a source buffer
distinct from the destination (the source is then never mutated, so its
`elementCount` and contents are fixed throughout).  `i` is the loop index,
`added` is `countAdded`, `error` the accumulated error flag; mirrors the C
loop in incrementing `countAdded` even for a failed append.  One fuel unit
per loop body execution; `none` on fuel exhaustion. -/
def appendLoop (ok : Bool) (other : ringbuffer_t) :
    Nat → ringbuffer_t → Nat → Nat → Bool → Option (ringbuffer_t × Nat × Bool)
  | fuel, dest, i, added, error =>
    if i < other.elementCount ∧ error = false then
      match fuel with
      | 0 => none
      | fuel + 1 =>
        match ringbuffer_append ok dest (ringbuffer_get other i) with
        | none => none
        | some (r, dest2) =>
          appendLoop ok other fuel dest2 (i + 1) (added + 1) (error || (r != 0))
    else some (dest, added, error)

/-- The rollback loop of `ringbuffer_append_ringbuffer`: `countAdded`
deletions of the last element, results discarded. -/
def rollbackLoop (ok : Bool) : Nat → ringbuffer_t → Option ringbuffer_t
  | 0, rb => some rb
  | k + 1, rb =>
    match ringbuffer_del ok rb (rb.elementCount - 1) with
    | none => none
    | some (_, rb2) => rollbackLoop ok k rb2

/-- `ringbuffer_append_ringbuffer`, for a source distinct from the
destination. -/
def ringbuffer_append_ringbuffer (ok : Bool) (dest other : ringbuffer_t) :
    Option (Int × ringbuffer_t) :=
  match appendLoop ok other (other.elementCount + 1) dest 0 0 false with
  | none => none
  | some (dest1, added, error) =>
    if error then (rollbackLoop ok added dest1).map (fun d => (-1, d))
    else some (0, dest1)

/-- The same `for` loop when `ringbuffer_append_ringbuffer` is called with
the one buffer as both destination and source: the loop bound
`other->elementCount` is then the destination's own, changing element
count. -/
def selfLoop (ok : Bool) :
    Nat → ringbuffer_t → Nat → Bool → Option (ringbuffer_t × Nat × Bool)
  | fuel, rb, i, error =>
    if i < rb.elementCount ∧ error = false then
      match fuel with
      | 0 => none
      | fuel + 1 =>
        match ringbuffer_append ok rb (ringbuffer_get rb i) with
        | none => none
        | some (r, rb2) =>
          selfLoop ok fuel rb2 (i + 1) (error || (r != 0))
    else some (rb, i, error)

/-- The logical contents of the buffer: `get i` for `i` in `[0, count)`. -/
def ringbuffer_toList (rb : ringbuffer_t) : List (Option Nat) :=
  (List.range rb.elementCount).map (ringbuffer_get rb)

/-- Modelled from the spec (§8, minimal-shift heuristic correctness): the
naive reference insertion that shifts every element after the index by one
position. -/
def naiveInsert (xs : List (Option Nat)) (index : Nat) (v : Option Nat) :
    List (Option Nat) :=
  xs.take index ++ v :: xs.drop index

/-- Modelled from the spec (§8): the naive reference deletion that shifts
every element after the index by one position. -/
def naiveDelete (xs : List (Option Nat)) (index : Nat) : List (Option Nat) :=
  xs.take index ++ xs.drop (index + 1)

/-- Model well-formedness: the backing list length matches `buffer_size`,
together with the spec's data-model invariant (§3). -/
def Wf (rb : ringbuffer_t) : Prop :=
  rb.buffer.length = rb.buffer_size ∧
  rb.elementCount ≤ rb.buffer_size ∧
  (0 < rb.buffer_size → rb.start < rb.buffer_size) ∧
  (rb.buffer_size = 0 → rb.start = 0) ∧
  (rb.buffer_size = 0 ∨ RINGBUFFER_MIN_BUFFER_SIZE ≤ rb.buffer_size)

instance (rb : ringbuffer_t) : Decidable (Wf rb) := by
  unfold Wf; infer_instance

/-- The data-model invariant exactly as the spec states it (§3): the claim
C2 is about these conditions alone. -/
def SpecInvariant (rb : ringbuffer_t) : Prop :=
  (0 < rb.buffer_size → rb.start < rb.buffer_size) ∧
  (rb.buffer_size = 0 → rb.start = 0) ∧
  rb.elementCount ≤ rb.buffer_size ∧
  (rb.buffer_size = 0 ∨ RINGBUFFER_MIN_BUFFER_SIZE ≤ rb.buffer_size)

instance (rb : ringbuffer_t) : Decidable (SpecInvariant rb) := by
  unfold SpecInvariant; infer_instance

/-! ## Concrete states used by counterexamples and witnesses -/

/-- A full well-formed destination: capacity 8, elements 1..8. -/
def destC1 : ringbuffer_t :=
  { buffer_size := 8, start := 0, elementCount := 8,
    buffer := [some 1, some 2, some 3, some 4, some 5, some 6, some 7, some 8] }

/-- A well-formed one-element source buffer. -/
def srcC1 : ringbuffer_t :=
  { buffer_size := 8, start := 0, elementCount := 1,
    buffer := [some 99, none, none, none, none, none, none, none] }

/-- A well-formed state: capacity 32, 4 elements in slots 28..31 (not
wrapped, but close to the physical end). -/
def rbC2 : ringbuffer_t :=
  { buffer_size := 32, start := 28, elementCount := 4,
    buffer := List.replicate 28 none ++ [some 0, some 1, some 2, some 3] }

/-- A well-formed unwrapped state: capacity 8, elements 1..6. -/
def rbC3 : ringbuffer_t :=
  { buffer_size := 8, start := 0, elementCount := 6,
    buffer := [some 1, some 2, some 3, some 4, some 5, some 6, none, none] }

/-- A well-formed full wrapped state: capacity 8, `start = 5`, and
`get i = some i` for `i < 8`. -/
def rbC4 : ringbuffer_t :=
  { buffer_size := 8, start := 5, elementCount := 8,
    buffer := [some 3, some 4, some 5, some 6, some 7, some 0, some 1, some 2] }

/-- A full well-formed state used by the C5 witness. -/
def rbC5full : ringbuffer_t :=
  { buffer_size := 8, start := 2, elementCount := 8,
    buffer := [some 6, some 7, some 0, some 1, some 2, some 3, some 4, some 5] }

/-- A wrapped well-formed state used by the C6 witness: capacity 8,
`start = 6`, 5 live elements 0..4. -/
def rbC6wrapped : ringbuffer_t :=
  { buffer_size := 8, start := 6, elementCount := 5,
    buffer := [some 2, some 3, some 4, none, none, none, some 0, some 1] }

/-- A full well-formed state used by the C7 witness (growth case). -/
def rbC7full : ringbuffer_t :=
  { buffer_size := 8, start := 0, elementCount := 8,
    buffer := [some 0, some 1, some 2, some 3, some 4, some 5, some 6, some 7] }

/-- A well-formed state used by the C7 witness (shrink case): capacity 32
with 4 elements at the front. -/
def rbC7shrink : ringbuffer_t :=
  { buffer_size := 32, start := 0, elementCount := 4,
    buffer := [some 0, some 1, some 2, some 3] ++ List.replicate 28 none }

/-- A well-formed state used by the C9 witness: capacity 8, `start = 7`,
3 live elements 10, 11, 12 (wrapping). -/
def rbC9 : ringbuffer_t :=
  { buffer_size := 8, start := 7, elementCount := 3,
    buffer := [some 11, some 12, none, none, none, none, none, some 10] }

/-- A small non-empty well-formed state used by the C10 witness. -/
def rbC10 : ringbuffer_t :=
  { buffer_size := 8, start := 0, elementCount := 2,
    buffer := [some 1, some 2, none, none, none, none, none, none] }

/-- The state produced by `ringbuffer_insert true rbC5full 0 (some 42)`
(used by the C5 witness). -/
def rbC5ins : ringbuffer_t :=
  { buffer_size := 16, start := 1, elementCount := 9,
    buffer := [some 6, some 42, some 0, some 1, some 2, some 3, some 4, some 5,
      some 6, some 7, none, none, none, none, none, none] }

/-- The state produced by `ringbuffer_insert true rbC7full 8 (some 9)`
(used by the C7 witness). -/
def rbC7grown : ringbuffer_t :=
  { buffer_size := 16, start := 0, elementCount := 9,
    buffer := [some 0, some 1, some 2, some 3, some 4, some 5, some 6, some 7,
      some 9, none, none, none, none, none, none, none] }

/-- The state produced by `ringbuffer_del true rbC7shrink 0` (used by the
C7 witness). -/
def rbC7shrunk : ringbuffer_t :=
  { buffer_size := 16, start := 1, elementCount := 3,
    buffer := [some 0, some 1, some 2, some 3] ++ List.replicate 12 none }

/-! ## List-level helper lemmas -/

theorem getD_set_eq_ite (l : List (Option Nat)) (i j : Nat) (v : Option Nat) :
    (l.set i v).getD j none =
      if i = j ∧ j < l.length then v else l.getD j none := by
  induction l generalizing i j with
  | nil => simp
  | cons a t ih =>
    cases i with
    | zero =>
      cases j with
      | zero => simp
      | succ j => simp
    | succ i =>
      cases j with
      | zero => simp
      | succ j =>
        simp only [List.set_cons_succ, List.getD_cons_succ, List.length_cons]
        rw [ih i j]
        congr 1
        simp only [eq_iff_iff]
        omega

theorem memmove_zero (b : List (Option Nat)) (d s : Nat) :
    memmove b d s 0 = b := rfl

theorem memmove_succ (b : List (Option Nat)) (d s n : Nat) :
    memmove b d s (n + 1) =
      (memmove b d s n).set (d + n) (b.getD (s + n) none) := by
  unfold memmove
  rw [List.range_succ, List.foldl_append, List.foldl_cons, List.foldl_nil]

theorem memmove_length (b : List (Option Nat)) (d s n : Nat) :
    (memmove b d s n).length = b.length := by
  induction n with
  | zero => rfl
  | succ n ih => rw [memmove_succ, List.length_set, ih]

theorem memmove_getD (b : List (Option Nat)) (d s : Nat) (n p : Nat)
    (hp : p < b.length) :
    (memmove b d s n).getD p none =
      if d ≤ p ∧ p < d + n then b.getD (s + (p - d)) none
      else b.getD p none := by
  induction n with
  | zero =>
    rw [memmove_zero, if_neg]
    omega
  | succ n ih =>
    rw [memmove_succ, getD_set_eq_ite, memmove_length, ih]
    by_cases hd : d + n = p
    · rw [if_pos ⟨hd, by omega⟩, if_pos (by omega)]
      congr 1
      omega
    · rw [if_neg (by omega)]
      by_cases hin : d ≤ p ∧ p < d + n
      · rw [if_pos hin, if_pos (by omega)]
      · rw [if_neg hin, if_neg (by omega)]

theorem getD_replicate_none (k p : Nat) :
    (List.replicate k (none : Option Nat)).getD p none = none := by
  induction k generalizing p with
  | zero => simp
  | succ k ih =>
    cases p with
    | zero => simp [List.replicate_succ]
    | succ p => simp [List.replicate_succ, ih p]

theorem reallocKeepPrefix_length (b : List (Option Nat)) (n : Nat) :
    (reallocKeepPrefix b n).length = n := by
  simp only [reallocKeepPrefix, List.length_append, List.length_take,
    List.length_replicate]
  omega

theorem reallocKeepPrefix_getD_grow (b : List (Option Nat)) (n p : Nat)
    (hn : b.length ≤ n) :
    (reallocKeepPrefix b n).getD p none =
      if p < b.length then b.getD p none else none := by
  unfold reallocKeepPrefix
  rw [List.take_of_length_le hn]
  by_cases hp : p < b.length
  · rw [if_pos hp, List.getD_append _ _ _ _ hp]
  · rw [if_neg hp, List.getD_append_right _ _ _ _ (by omega),
      getD_replicate_none]

/-! ## Modular-arithmetic helper lemmas -/

theorem mod_eq_sub_of (a n : Nat) (h1 : n ≤ a) (h2 : a < 2 * n) :
    a % n = a - n := by
  rw [Nat.mod_eq_sub_mod h1, Nat.mod_eq_of_lt (by omega)]

theorem add_mod_left_inj (s n a b : Nat) (ha : a < n) (hb : b < n)
    (h : (s + a) % n = (s + b) % n) : a = b := by
  have h2 : a ≡ b [MOD n] :=
    Nat.ModEq.add_left_cancel' s h
  have h3 : a % n = b % n := h2
  rwa [Nat.mod_eq_of_lt ha, Nat.mod_eq_of_lt hb] at h3

theorem sizeSub_of_le (a b : Nat) (h : b ≤ a) : sizeSub a b = a - b := by
  rw [sizeSub, if_pos h]

/-! ## Behaviour of `ringbuffer_resize` -/

theorem resize_fail (rb : ringbuffer_t) (n : Nat) :
    ringbuffer_resize false rb n = (-1, rb) := by
  unfold ringbuffer_resize
  by_cases hb : rb.buffer = [] <;> simp [hb]

theorem resize_cases (ok : Bool) (rb : ringbuffer_t) (n : Nat) :
    ringbuffer_resize ok rb n = (-1, rb) ∨
    ((ringbuffer_resize ok rb n).1 = 0 ∧
     (ringbuffer_resize ok rb n).2.buffer_size = clampMin n ∧
     (ringbuffer_resize ok rb n).2.elementCount = rb.elementCount) := by
  unfold ringbuffer_resize
  dsimp only
  split
  · split
    · right; exact ⟨rfl, rfl, rfl⟩
    · left; rfl
  · split
    · left; rfl
    · split
      · split
        · right; exact ⟨rfl, rfl, rfl⟩
        · right; exact ⟨rfl, rfl, rfl⟩
      · left; rfl

theorem resize_elementCount (ok : Bool) (rb : ringbuffer_t) (n : Nat) :
    (ringbuffer_resize ok rb n).2.elementCount = rb.elementCount := by
  rcases resize_cases ok rb n with h | h
  · rw [h]
  · exact h.2.2

theorem resize_success_buffer_size (ok : Bool) (rb : ringbuffer_t) (n : Nat)
    (h : (ringbuffer_resize ok rb n).1 = 0) :
    (ringbuffer_resize ok rb n).2.buffer_size = clampMin n := by
  rcases resize_cases ok rb n with hc | hc
  · rw [hc] at h; simp at h
  · exact hc.2.1

theorem resize_true_succeeds (rb : ringbuffer_t) (n : Nat)
    (hc : rb.elementCount ≤ clampMin n) :
    (ringbuffer_resize true rb n).1 = 0 := by
  unfold ringbuffer_resize
  dsimp only
  split
  · rfl
  · split
    · omega
    · split
      · split <;> rfl
      · next hok => exact absurd rfl hok

/-! ## Behaviour of `ringbuffer_move` -/

theorem moveFwd_length (st size : Nat) :
    ∀ (fuel : Nat) (b : List (Option Nat)) (pr pw c : Nat)
      (b2 : List (Option Nat)),
      moveFwd st size fuel b pr pw c = some b2 → b2.length = b.length := by
  intro fuel
  induction fuel with
  | zero =>
    intro b pr pw c b2 h
    rw [moveFwd] at h
    split at h
    · injection h with h; rw [← h, memmove_length]
    · exact Option.noConfusion h
  | succ fuel ih =>
    intro b pr pw c b2 h
    rw [moveFwd] at h
    split at h
    · injection h with h; rw [← h, memmove_length]
    · rw [ih _ _ _ _ _ h, memmove_length]

theorem moveBwd_length (st size : Nat) :
    ∀ (fuel : Nat) (b : List (Option Nat)) (pr pw c : Nat)
      (b2 : List (Option Nat)),
      moveBwd st size fuel b pr pw c = some b2 → b2.length = b.length := by
  intro fuel
  induction fuel with
  | zero =>
    intro b pr pw c b2 h
    rw [moveBwd] at h
    split at h
    · injection h with h; rw [← h, memmove_length]
    · exact Option.noConfusion h
  | succ fuel ih =>
    intro b pr pw c b2 h
    rw [moveBwd] at h
    split at h
    · injection h with h; rw [← h, memmove_length]
    · rw [ih _ _ _ _ _ h, memmove_length]

theorem ringbuffer_move_fields (rb : ringbuffer_t) (d s c : Nat)
    (rb2 : ringbuffer_t) (h : ringbuffer_move rb d s c = some rb2) :
    rb2.buffer_size = rb.buffer_size ∧ rb2.start = rb.start ∧
    rb2.elementCount = rb.elementCount ∧
    rb2.buffer.length = rb.buffer.length := by
  unfold ringbuffer_move at h
  dsimp only at h
  split at h
  · rcases Option.map_eq_some'.mp h with ⟨b2, hm, hb⟩
    rw [← hb]
    exact ⟨rfl, rfl, rfl, moveFwd_length _ _ _ _ _ _ _ _ hm⟩
  · rcases Option.map_eq_some'.mp h with ⟨b2, hm, hb⟩
    rw [← hb]
    exact ⟨rfl, rfl, rfl, moveBwd_length _ _ _ _ _ _ _ _ hm⟩

/-! ## Behaviour of `ringbuffer_insert` / `ringbuffer_append` -/

theorem insertPlace_append (rb1 : ringbuffer_t) (v : Option Nat) :
    insertPlace rb1 rb1.elementCount v =
      some (0, { rb1 with
        buffer := rb1.buffer.set
          ((rb1.start + rb1.elementCount) % rb1.buffer_size) v,
        elementCount := rb1.elementCount + 1 }) := by
  unfold insertPlace
  rw [if_pos rfl]

theorem insertPlace_shape (rb1 : ringbuffer_t) (index : Nat) (v : Option Nat)
    (r : Int) (rb2 : ringbuffer_t)
    (h : insertPlace rb1 index v = some (r, rb2)) :
    r = 0 ∧ rb2.elementCount = rb1.elementCount + 1 ∧
    rb2.buffer_size = rb1.buffer_size := by
  unfold insertPlace at h
  split at h
  · have h2 := Option.some.inj h
    rw [Prod.mk.injEq] at h2
    rw [← h2.1, ← h2.2]
    exact ⟨rfl, rfl, rfl⟩
  · split at h
    · dsimp only at h
      have h2 := Option.some.inj h
      rw [Prod.mk.injEq] at h2
      rw [← h2.1, ← h2.2]
      exact ⟨rfl, rfl, rfl⟩
    · split at h
      · dsimp only at h
        rcases Option.map_eq_some'.mp h with ⟨rb3, hm, hf⟩
        rw [Prod.mk.injEq] at hf
        obtain ⟨hsz, -, hcn, -⟩ := ringbuffer_move_fields _ _ _ _ _ hm
        rw [← hf.1, ← hf.2]
        exact ⟨rfl, by simp [hcn], by simp [hsz]⟩
      · rcases Option.map_eq_some'.mp h with ⟨rb3, hm, hf⟩
        rw [Prod.mk.injEq] at hf
        obtain ⟨hsz, -, hcn, -⟩ := ringbuffer_move_fields _ _ _ _ _ hm
        rw [← hf.1, ← hf.2]
        exact ⟨rfl, by simp [hcn], by simp [hsz]⟩

theorem insert_oob (ok : Bool) (rb : ringbuffer_t) (index : Nat)
    (v : Option Nat) (h : rb.elementCount < index) :
    ringbuffer_insert ok rb index v = some (-1, rb) := by
  unfold ringbuffer_insert
  rw [if_pos h]

theorem insert_full_alloc_fail (rb : ringbuffer_t) (index : Nat)
    (v : Option Nat) (h1 : index ≤ rb.elementCount)
    (h2 : rb.elementCount = rb.buffer_size) :
    ringbuffer_insert false rb index v = some (-1, rb) := by
  unfold ringbuffer_insert
  rw [if_neg (by omega), if_pos h2, resize_fail]
  rfl

theorem insert_shape (ok : Bool) (rb : ringbuffer_t) (index : Nat)
    (v : Option Nat) (rb2 : ringbuffer_t)
    (h : ringbuffer_insert ok rb index v = some (0, rb2)) :
    rb2.elementCount = rb.elementCount + 1 ∧
    rb2.buffer_size = (if rb.elementCount = rb.buffer_size
      then clampMin (rb.buffer_size * 2) else rb.buffer_size) := by
  unfold ringbuffer_insert at h
  by_cases hoob : rb.elementCount < index
  · rw [if_pos hoob] at h
    have h2 := Option.some.inj h
    rw [Prod.mk.injEq] at h2
    exact absurd h2.1 (by decide)
  · rw [if_neg hoob] at h
    by_cases hfull : rb.elementCount = rb.buffer_size
    · rw [if_pos hfull] at h
      rcases hres : ringbuffer_resize ok rb (rb.buffer_size * 2) with ⟨r0, rb1⟩
      rw [hres] at h
      dsimp only at h
      by_cases hr0 : r0 = 0
      · rw [if_pos hr0] at h
        obtain ⟨-, hcount, hsize⟩ := insertPlace_shape _ _ _ _ _ h
        have hc1 : rb1.elementCount = rb.elementCount := by
          have h3 := resize_elementCount ok rb (rb.buffer_size * 2)
          rw [hres] at h3; exact h3
        have hs1 : rb1.buffer_size = clampMin (rb.buffer_size * 2) := by
          have h3 := resize_success_buffer_size ok rb (rb.buffer_size * 2)
            (by rw [hres]; exact hr0)
          rw [hres] at h3; exact h3
        rw [if_pos hfull]
        exact ⟨by omega, by rw [hsize, hs1]⟩
      · rw [if_neg hr0] at h
        have h2 := Option.some.inj h
        rw [Prod.mk.injEq] at h2
        exact absurd h2.1 (by decide)
    · rw [if_neg hfull] at h
      dsimp only at h
      rw [if_pos rfl] at h
      obtain ⟨-, hcount, hsize⟩ := insertPlace_shape _ _ _ _ _ h
      rw [if_neg hfull]
      exact ⟨hcount, hsize⟩

theorem append_true_succeeds (rb : ringbuffer_t) (v : Option Nat) :
    ∃ rb2, ringbuffer_append true rb v = some (0, rb2) ∧
      rb2.elementCount = rb.elementCount + 1 := by
  unfold ringbuffer_append ringbuffer_insert
  rw [if_neg (by omega)]
  by_cases hfull : rb.elementCount = rb.buffer_size
  · rw [if_pos hfull]
    rcases hres : ringbuffer_resize true rb (rb.buffer_size * 2) with ⟨r0, rb1⟩
    have hr0 : r0 = 0 := by
      have h3 := resize_true_succeeds rb (rb.buffer_size * 2)
        (by unfold clampMin; split <;> omega)
      rw [hres] at h3; exact h3
    have hc1 : rb1.elementCount = rb.elementCount := by
      have h3 := resize_elementCount true rb (rb.buffer_size * 2)
      rw [hres] at h3; exact h3
    dsimp only
    rw [hr0, if_pos rfl, ← hc1]
    exact ⟨_, insertPlace_append rb1 v, by simp [hc1]⟩
  · rw [if_neg hfull]
    dsimp only
    rw [if_pos rfl]
    exact ⟨_, insertPlace_append rb v, by simp⟩

theorem append_isSome (ok : Bool) (rb : ringbuffer_t) (v : Option Nat) :
    ∃ r rb2, ringbuffer_append ok rb v = some (r, rb2) := by
  cases ok
  · by_cases hfull : rb.elementCount = rb.buffer_size
    · exact ⟨-1, rb, insert_full_alloc_fail rb _ v (by omega) hfull⟩
    · unfold ringbuffer_append ringbuffer_insert
      rw [if_neg (by omega), if_neg hfull]
      dsimp only
      rw [if_pos rfl]
      exact ⟨0, _, insertPlace_append rb v⟩
  · obtain ⟨rb2, h, -⟩ := append_true_succeeds rb v
    exact ⟨0, rb2, h⟩

/-! ## Behaviour of `ringbuffer_del` and the append/rollback loops -/

theorem del_last_isSome (ok : Bool) (rb : ringbuffer_t) :
    ∃ p, ringbuffer_del ok rb (rb.elementCount - 1) = some p := by
  unfold ringbuffer_del
  by_cases h : rb.elementCount ≤ rb.elementCount - 1
  · rw [if_pos h]; exact ⟨_, rfl⟩
  · rw [if_neg h]
    dsimp only
    rw [if_pos rfl]
    exact ⟨_, rfl⟩

theorem rollbackLoop_isSome (ok : Bool) :
    ∀ (k : Nat) (rb : ringbuffer_t), ∃ rb2, rollbackLoop ok k rb = some rb2 := by
  intro k
  induction k with
  | zero => intro rb; exact ⟨rb, rfl⟩
  | succ k ih =>
    intro rb
    obtain ⟨p, hp⟩ := del_last_isSome ok rb
    simp only [rollbackLoop]
    rw [hp]
    exact ih p.2

theorem appendLoop_isSome (ok : Bool) (other : ringbuffer_t) :
    ∀ (fuel : Nat) (dest : ringbuffer_t) (i added : Nat) (error : Bool),
      other.elementCount ≤ i + fuel →
      ∃ p, appendLoop ok other fuel dest i added error = some p := by
  intro fuel
  induction fuel with
  | zero =>
    intro dest i added error hle
    rw [appendLoop]
    split
    · next hg => exact absurd hg.1 (by omega)
    · exact ⟨_, rfl⟩
  | succ fuel ih =>
    intro dest i added error hle
    rw [appendLoop]
    split
    · obtain ⟨r, d2, happ⟩ := append_isSome ok dest (ringbuffer_get other i)
      rw [happ]
      exact ih d2 (i + 1) (added + 1) _ (by omega)
    · exact ⟨_, rfl⟩

theorem append_ringbuffer_isSome (ok : Bool) (dest other : ringbuffer_t) :
    ∃ p, ringbuffer_append_ringbuffer ok dest other = some p := by
  unfold ringbuffer_append_ringbuffer
  obtain ⟨⟨d1, added, error⟩, hl⟩ :=
    appendLoop_isSome ok other (other.elementCount + 1) dest 0 0 false (by omega)
  rw [hl]
  dsimp only
  cases error
  · exact ⟨_, rfl⟩
  · rw [if_pos rfl]
    obtain ⟨d2, hr⟩ := rollbackLoop_isSome ok added d1
    rw [hr]
    exact ⟨_, rfl⟩

theorem selfLoop_none :
    ∀ (fuel : Nat) (rb : ringbuffer_t) (i : Nat), i < rb.elementCount →
      selfLoop true fuel rb i false = none := by
  intro fuel
  induction fuel with
  | zero =>
    intro rb i h
    rw [selfLoop]
    rw [if_pos ⟨h, rfl⟩]
  | succ fuel ih =>
    intro rb i h
    rw [selfLoop]
    rw [if_pos ⟨h, rfl⟩]
    obtain ⟨rb2, happ, hc⟩ := append_true_succeeds rb (ringbuffer_get rb i)
    rw [happ]
    show selfLoop true fuel rb2 (i + 1) (false || ((0 : Int) != 0)) = none
    have herr : (false || ((0 : Int) != 0)) = false := by decide
    rw [herr]
    exact ih rb2 (i + 1) (by omega)

theorem insert_true_full_shape (rb : ringbuffer_t) (index : Nat)
    (v : Option Nat) (r : Int) (rb2 : ringbuffer_t)
    (hfull : rb.elementCount = rb.buffer_size) (hidx : index ≤ rb.elementCount)
    (h : ringbuffer_insert true rb index v = some (r, rb2)) :
    r = 0 ∧ rb2.elementCount = rb.elementCount + 1 ∧
    rb2.buffer_size = clampMin (rb.buffer_size * 2) := by
  unfold ringbuffer_insert at h
  rw [if_neg (by omega), if_pos hfull] at h
  rcases hres : ringbuffer_resize true rb (rb.buffer_size * 2) with ⟨r0, rb1⟩
  rw [hres] at h
  dsimp only at h
  have hr0 : r0 = 0 := by
    have h3 := resize_true_succeeds rb (rb.buffer_size * 2)
      (by unfold clampMin RINGBUFFER_MIN_BUFFER_SIZE; split <;> omega)
    rw [hres] at h3
    exact h3
  rw [if_pos hr0] at h
  obtain ⟨hr, hcount, hsize⟩ := insertPlace_shape _ _ _ _ _ h
  have hc1 : rb1.elementCount = rb.elementCount := by
    have h3 := resize_elementCount true rb (rb.buffer_size * 2)
    rw [hres] at h3
    exact h3
  have hs1 : rb1.buffer_size = clampMin (rb.buffer_size * 2) := by
    have h3 := resize_success_buffer_size true rb (rb.buffer_size * 2)
      (by rw [hres]; exact hr0)
    rw [hres] at h3
    exact h3
  exact ⟨hr, by omega, by rw [hsize, hs1]⟩

theorem del_true_shrink_shape (rb : ringbuffer_t) (index : Nat) (r : Int)
    (rb2 : ringbuffer_t) (hidx : index < rb.elementCount)
    (hshr : rb.elementCount - 1 < rb.buffer_size / 8)
    (h : ringbuffer_del true rb index = some (r, rb2)) :
    r = 0 ∧
    rb2.buffer_size = max (rb.buffer_size / 2) RINGBUFFER_MIN_BUFFER_SIZE := by
  unfold ringbuffer_del at h
  rw [if_neg (by omega)] at h
  dsimp only at h
  rcases Option.map_eq_some'.mp h with ⟨rb1, hstep, hf⟩
  have hfields : rb1.buffer_size = rb.buffer_size ∧
      rb1.elementCount = rb.elementCount := by
    split at hstep
    · have h2 := Option.some.inj hstep
      exact ⟨by rw [← h2], by rw [← h2]⟩
    · split at hstep
      · have h2 := Option.some.inj hstep
        exact ⟨by rw [← h2], by rw [← h2]⟩
      · split at hstep
        · rcases Option.map_eq_some'.mp hstep with ⟨rb0, hm, hf0⟩
          obtain ⟨hsz, -, hcn, -⟩ := ringbuffer_move_fields _ _ _ _ _ hm
          rw [← hf0]
          exact ⟨by simp [hsz], by simp [hcn]⟩
        · obtain ⟨hsz, -, hcn, -⟩ := ringbuffer_move_fields _ _ _ _ _ hstep
          exact ⟨hsz, hcn⟩
  rw [if_pos (show rb1.elementCount - 1 < rb1.buffer_size / 8 by omega)] at hf
  rw [Prod.mk.injEq] at hf
  obtain ⟨hr, hrb2⟩ := hf
  refine ⟨hr.symm, ?_⟩
  rw [← hrb2]
  have hc3 : ({ rb1 with elementCount := rb1.elementCount - 1 } :
      ringbuffer_t).elementCount ≤
      clampMin (({ rb1 with elementCount := rb1.elementCount - 1 } :
        ringbuffer_t).buffer_size / 2) := by
    show rb1.elementCount - 1 ≤ clampMin (rb1.buffer_size / 2)
    unfold clampMin RINGBUFFER_MIN_BUFFER_SIZE
    split <;> omega
  have hs := resize_success_buffer_size true
    { rb1 with elementCount := rb1.elementCount - 1 }
    (({ rb1 with elementCount := rb1.elementCount - 1 } :
      ringbuffer_t).buffer_size / 2)
    (resize_true_succeeds _ _ hc3)
  rw [hs]
  show clampMin (rb1.buffer_size / 2) =
    max (rb.buffer_size / 2) RINGBUFFER_MIN_BUFFER_SIZE
  unfold clampMin RINGBUFFER_MIN_BUFFER_SIZE
  split <;> omega

/-! ## Claim theorems -/

/-- C6: for every well-formed buffer state whose live range wraps the
physical end of storage, a successful growing resize returns success,
leaves `elementCount` unchanged, and leaves `ringbuffer_get i` unchanged
for every `i` below the element count. -/
theorem c6_grow_of_wrapped_preserves_contents (rb : ringbuffer_t) (n : Nat)
    (hwf : Wf rb) (hwrap : rb.buffer_size < rb.start + rb.elementCount)
    (hgrow : rb.buffer_size < n) :
    (ringbuffer_resize true rb n).1 = 0 ∧
    (ringbuffer_resize true rb n).2.elementCount = rb.elementCount ∧
    ∀ i, i < rb.elementCount →
      ringbuffer_get (ringbuffer_resize true rb n).2 i = ringbuffer_get rb i := by
  obtain ⟨hlen, hcnt, hstart, hzero, hmin⟩ := hwf
  have h8 : 8 ≤ rb.buffer_size := by
    rcases hmin with h0 | h8
    · exfalso; have hst0 := hzero h0; omega
    · exact h8
  have hstlt : rb.start < rb.buffer_size := hstart (by omega)
  have hclamp : clampMin n = n := by
    unfold clampMin RINGBUFFER_MIN_BUFFER_SIZE
    rw [if_neg (by omega)]
  have hbne : rb.buffer ≠ [] := by
    intro hh
    rw [hh] at hlen
    simp at hlen
    omega
  have hwrapc : rb.start > sizeSub rb.buffer_size rb.elementCount := by
    rw [sizeSub_of_le _ _ hcnt]
    omega
  have hb1len : (reallocKeepPrefix rb.buffer n).length = n :=
    reallocKeepPrefix_length _ _
  have hb1get : ∀ p, (reallocKeepPrefix rb.buffer n).getD p none =
      if p < rb.buffer_size then rb.buffer.getD p none else none := by
    intro p
    rw [reallocKeepPrefix_getD_grow _ _ _ (by omega), hlen]
  unfold ringbuffer_resize
  dsimp only
  rw [hclamp, if_neg hbne, if_neg (by omega : ¬ n < rb.elementCount),
    if_pos rfl, if_pos hwrapc]
  refine ⟨rfl, rfl, ?_⟩
  intro i hi
  unfold ringbuffer_get
  dsimp only
  rw [if_neg (by omega : ¬ rb.elementCount ≤ i),
    if_neg (by omega : ¬ rb.elementCount ≤ i)]
  unfold relocateWrapped
  dsimp only
  rw [mod_eq_sub_of (rb.start + rb.elementCount) rb.buffer_size (by omega) (by omega)]
  by_cases hAB :
      rb.buffer_size - rb.start < rb.start + rb.elementCount - rb.buffer_size
  · rw [if_pos hAB]
    dsimp only
    by_cases hiu : i < rb.buffer_size - rb.start
    · have hidx : (n - (rb.buffer_size - rb.start) + i) % n =
          n - (rb.buffer_size - rb.start) + i := Nat.mod_eq_of_lt (by omega)
      rw [hidx, memmove_getD _ _ _ _ _ (by rw [hb1len]; omega),
        if_pos ⟨by omega, by omega⟩]
      have harg : rb.buffer_size - (rb.buffer_size - rb.start) +
          (n - (rb.buffer_size - rb.start) + i - (n - (rb.buffer_size - rb.start))) =
          rb.start + i := by omega
      rw [harg, hb1get, if_pos (by omega),
        Nat.mod_eq_of_lt (show rb.start + i < rb.buffer_size by omega)]
    · have hidx : (n - (rb.buffer_size - rb.start) + i) % n =
          i - (rb.buffer_size - rb.start) := by
        have h1 : n - (rb.buffer_size - rb.start) + i =
            n + (i - (rb.buffer_size - rb.start)) := by omega
        rw [h1, Nat.add_mod_left, Nat.mod_eq_of_lt (by omega)]
      rw [hidx, memmove_getD _ _ _ _ _ (by rw [hb1len]; omega),
        if_neg (by omega), hb1get, if_pos (by omega),
        mod_eq_sub_of (rb.start + i) rb.buffer_size (by omega) (by omega)]
      congr 1
      omega
  · rw [if_neg hAB]
    rw [sizeSub_of_le n rb.buffer_size (by omega)]
    by_cases hB1 :
        rb.start + rb.elementCount - rb.buffer_size > n - rb.buffer_size
    · rw [if_pos hB1]
      dsimp only
      by_cases hiu : i < rb.buffer_size - rb.start
      · rw [Nat.mod_eq_of_lt (show rb.start + i < n by omega),
          memmove_getD _ _ _ _ _ (by rw [memmove_length, hb1len]; omega),
          if_neg (by omega),
          memmove_getD _ _ _ _ _ (by rw [hb1len]; omega),
          if_neg (by omega), hb1get, if_pos (by omega),
          Nat.mod_eq_of_lt (show rb.start + i < rb.buffer_size by omega)]
      · by_cases hj : i - (rb.buffer_size - rb.start) < n - rb.buffer_size
        · have heq : rb.start + i =
              rb.buffer_size + (i - (rb.buffer_size - rb.start)) := by omega
          have hidx : (rb.start + i) % n =
              rb.buffer_size + (i - (rb.buffer_size - rb.start)) := by
            rw [heq, Nat.mod_eq_of_lt (by omega)]
          rw [hidx,
            memmove_getD _ _ _ _ _ (by rw [memmove_length, hb1len]; omega),
            if_neg (by omega),
            memmove_getD _ _ _ _ _ (by rw [hb1len]; omega),
            if_pos ⟨by omega, by omega⟩]
          have harg : 0 + (rb.buffer_size + (i - (rb.buffer_size - rb.start)) -
              rb.buffer_size) = i - (rb.buffer_size - rb.start) := by omega
          rw [harg, hb1get, if_pos (by omega),
            mod_eq_sub_of (rb.start + i) rb.buffer_size (by omega) (by omega)]
          congr 1
          omega
        · have hidx : (rb.start + i) % n =
              i - (rb.buffer_size - rb.start) - (n - rb.buffer_size) := by
            rw [mod_eq_sub_of (rb.start + i) n (by omega) (by omega)]
            omega
          rw [hidx,
            memmove_getD _ _ _ _ _ (by rw [memmove_length, hb1len]; omega),
            if_pos ⟨by omega, by omega⟩]
          have harg : n - rb.buffer_size +
              (i - (rb.buffer_size - rb.start) - (n - rb.buffer_size) - 0) =
              i - (rb.buffer_size - rb.start) := by omega
          rw [harg, memmove_getD _ _ _ _ _ (by rw [hb1len]; omega),
            if_neg (by omega), hb1get, if_pos (by omega),
            mod_eq_sub_of (rb.start + i) rb.buffer_size (by omega) (by omega)]
          congr 1
          omega
    · rw [if_neg hB1]
      dsimp only
      by_cases hiu : i < rb.buffer_size - rb.start
      · rw [Nat.mod_eq_of_lt (show rb.start + i < n by omega),
          memmove_getD _ _ _ _ _ (by rw [hb1len]; omega),
          if_neg (by omega), hb1get, if_pos (by omega),
          Nat.mod_eq_of_lt (show rb.start + i < rb.buffer_size by omega)]
      · have heq : rb.start + i =
            rb.buffer_size + (i - (rb.buffer_size - rb.start)) := by omega
        have hidx : (rb.start + i) % n =
            rb.buffer_size + (i - (rb.buffer_size - rb.start)) := by
          rw [heq, Nat.mod_eq_of_lt (by omega)]
        rw [hidx, memmove_getD _ _ _ _ _ (by rw [hb1len]; omega),
          if_pos ⟨by omega, by omega⟩]
        have harg : 0 + (rb.buffer_size + (i - (rb.buffer_size - rb.start)) -
            rb.buffer_size) = i - (rb.buffer_size - rb.start) := by omega
        rw [harg, hb1get, if_pos (by omega),
          mod_eq_sub_of (rb.start + i) rb.buffer_size (by omega) (by omega)]
        congr 1
        omega

/-- C6 witness: the theorem applied to the concrete wrapped state
`rbC6wrapped` grown from capacity 8 to 16. -/
theorem c6_grow_of_wrapped_preserves_contents_witness :
    Wf rbC6wrapped ∧
    rbC6wrapped.buffer_size < rbC6wrapped.start + rbC6wrapped.elementCount ∧
    rbC6wrapped.buffer_size < 16 ∧
    (ringbuffer_resize true rbC6wrapped 16).1 = 0 ∧
    (ringbuffer_resize true rbC6wrapped 16).2.elementCount =
      rbC6wrapped.elementCount ∧
    ringbuffer_get (ringbuffer_resize true rbC6wrapped 16).2 3 =
      ringbuffer_get rbC6wrapped 3 :=
  ⟨by decide, by decide, by decide,
   (c6_grow_of_wrapped_preserves_contents rbC6wrapped 16 (by decide) (by decide)
     (by decide)).1,
   (c6_grow_of_wrapped_preserves_contents rbC6wrapped 16 (by decide) (by decide)
     (by decide)).2.1,
   (c6_grow_of_wrapped_preserves_contents rbC6wrapped 16 (by decide) (by decide)
     (by decide)).2.2 3 (by decide)⟩

/-- C1 (failing-input evaluation): on the full well-formed destination
`destC1` (8 elements, capacity 8) and the one-element source `srcC1`, with
the allocator failing, the very first append fails, yet `countAdded` was
already incremented, so the rollback deletes one pre-existing element: the
call returns failure with the destination's element count dropped from 8
to 7 (its last element released), not with the destination unchanged. -/
theorem c1_append_rollback_removes_preexisting_element :
    Wf destC1 ∧ Wf srcC1 ∧ destC1.elementCount = 8 ∧
    ringbuffer_append_ringbuffer false destC1 srcC1 =
      some (-1, { destC1 with elementCount := 7 }) ∧
    ringbuffer_get destC1 7 = some 8 ∧
    ringbuffer_get { destC1 with elementCount := 7 } 7 = none := by decide

/-- C2 (failing-input evaluation): `rbC2` (capacity 32, start 28, count 4)
satisfies the spec's data-model invariant, but `ringbuffer_del true rbC2 0`
triggers the shrinking resize, which truncates the allocation to 16 slots
without relocating the live range (the wrap test fails), leaving
`start = 29 ≥ capacity = 16`: the invariant is violated (and the three
live elements were lost with the truncated storage). -/
theorem c2_del_shrink_violates_invariant :
    SpecInvariant rbC2 ∧ Wf rbC2 ∧
    ringbuffer_del true rbC2 0 =
      some (0, { buffer_size := 16, start := 29, elementCount := 3,
                 buffer := List.replicate 16 none }) ∧
    ¬ SpecInvariant { buffer_size := 16, start := 29, elementCount := 3,
                      buffer := List.replicate 16 none } := by decide

/-- C3 (failing-input evaluation): inserting 99 at index 4 into the
well-formed buffer `rbC3` holding `[1,2,3,4,5,6]` yields
`[1,2,3,4,99,6,6]` — the backward move copies the block starting at the
end pointers, so element 5 is lost and 6 duplicated — while the naive
shift-everything-after-the-index reference yields `[1,2,3,4,99,5,6]`. -/
theorem c3_insert_differs_from_naive_shift :
    Wf rbC3 ∧
    ringbuffer_toList rbC3 =
      [some 1, some 2, some 3, some 4, some 5, some 6] ∧
    ((ringbuffer_insert true rbC3 4 (some 99)).map
      (fun p => (p.1, ringbuffer_toList p.2))) =
      some (0, [some 1, some 2, some 3, some 4, some 99, some 6, some 6]) ∧
    naiveInsert (ringbuffer_toList rbC3) 4 (some 99) =
      [some 1, some 2, some 3, some 4, some 99, some 5, some 6] ∧
    ((ringbuffer_insert true rbC3 4 (some 99)).map
      (fun p => ringbuffer_toList p.2)) ≠
      some (naiveInsert (ringbuffer_toList rbC3) 4 (some 99)) := by decide

/-- C4 (failing-input evaluation): growing the wrapped full state `rbC4`
(capacity 8, `get i = some i`) to 16 succeeds and preserves the contents,
but the shrink back to 8 — though it also reports success — reads the
relocated block from beyond the truncated allocation (freed memory): the
first three logical elements are lost. -/
theorem c4_grow_then_shrink_wrapped_loses_contents :
    Wf rbC4 ∧ rbC4.buffer_size < rbC4.start + rbC4.elementCount ∧
    ringbuffer_toList rbC4 =
      [some 0, some 1, some 2, some 3, some 4, some 5, some 6, some 7] ∧
    (ringbuffer_resize true rbC4 16).1 = 0 ∧
    ringbuffer_toList (ringbuffer_resize true rbC4 16).2 =
      ringbuffer_toList rbC4 ∧
    (ringbuffer_resize true (ringbuffer_resize true rbC4 16).2 8).1 = 0 ∧
    ringbuffer_toList
        (ringbuffer_resize true (ringbuffer_resize true rbC4 16).2 8).2 =
      [none, none, none, some 3, some 4, some 5, some 6, some 7] ∧
    ringbuffer_toList
        (ringbuffer_resize true (ringbuffer_resize true rbC4 16).2 8).2 ≠
      ringbuffer_toList rbC4 := by decide

/-- C5: `ringbuffer_insert` requires `index ≤ count` — for any larger index
it returns `-1` with the buffer unchanged; on a full buffer with a failing
allocator the resize failure propagates as `-1` with the buffer completely
unchanged; every successful insert increments `elementCount` by exactly
one; and on a full buffer with a succeeding allocator the insert first
resizes to `clampMin (capacity * 2)` (which is `2 * capacity` whenever the
buffer was ever allocated). -/
theorem c5_insert_range_and_alloc_contract :
    (∀ (ok : Bool) (rb : ringbuffer_t) (index : Nat) (v : Option Nat),
      rb.elementCount < index → ringbuffer_insert ok rb index v = some (-1, rb)) ∧
    (∀ (rb : ringbuffer_t) (index : Nat) (v : Option Nat),
      index ≤ rb.elementCount → rb.elementCount = rb.buffer_size →
      ringbuffer_insert false rb index v = some (-1, rb)) ∧
    (∀ (ok : Bool) (rb : ringbuffer_t) (index : Nat) (v : Option Nat)
        (rb2 : ringbuffer_t),
      ringbuffer_insert ok rb index v = some (0, rb2) →
      rb2.elementCount = rb.elementCount + 1) ∧
    (∀ (rb : ringbuffer_t) (index : Nat) (v : Option Nat) (r : Int)
        (rb2 : ringbuffer_t),
      rb.elementCount = rb.buffer_size → index ≤ rb.elementCount →
      ringbuffer_insert true rb index v = some (r, rb2) →
      r = 0 ∧ rb2.buffer_size = clampMin (rb.buffer_size * 2)) :=
  ⟨insert_oob,
   insert_full_alloc_fail,
   fun ok rb index v rb2 h => (insert_shape ok rb index v rb2 h).1,
   fun rb index v r rb2 hfull hidx h =>
     ⟨(insert_true_full_shape rb index v r rb2 hfull hidx h).1,
      (insert_true_full_shape rb index v r rb2 hfull hidx h).2.2⟩⟩

/-- C5 witness: the contract applied to the concrete full state
`rbC5full`. -/
theorem c5_insert_range_and_alloc_contract_witness :
    ringbuffer_insert true rbC5full 9 (some 3) = some (-1, rbC5full) ∧
    ringbuffer_insert false rbC5full 8 (some 3) = some (-1, rbC5full) ∧
    rbC5ins.elementCount = rbC5full.elementCount + 1 ∧
    ((0 : Int) = 0 ∧ rbC5ins.buffer_size = clampMin (rbC5full.buffer_size * 2)) :=
  ⟨c5_insert_range_and_alloc_contract.1 true rbC5full 9 (some 3) (by decide),
   c5_insert_range_and_alloc_contract.2.1 rbC5full 8 (some 3) (by decide)
     (by decide),
   c5_insert_range_and_alloc_contract.2.2.1 true rbC5full 0 (some 42) rbC5ins
     (by decide),
   c5_insert_range_and_alloc_contract.2.2.2 rbC5full 0 (some 42) 0 rbC5ins
     (by decide) (by decide) (by decide)⟩

/-- C7: capacity lifecycle — the first insertion into the uninitialized
buffer allocates exactly 8 slots; an insertion into a full allocated
buffer doubles the capacity; a deletion that leaves the count below
`capacity / 8` resizes the capacity to `max (capacity / 2) 8`, never below
the minimum 8. -/
theorem c7_capacity_lifecycle :
    (∀ v : Option Nat,
      (ringbuffer_insert true ringbuffer_init 0 v).map
        (fun p => (p.1, p.2.buffer_size)) = some (0, 8)) ∧
    (∀ (rb : ringbuffer_t) (index : Nat) (v : Option Nat) (r : Int)
        (rb2 : ringbuffer_t),
      Wf rb → 0 < rb.buffer_size → rb.elementCount = rb.buffer_size →
      index ≤ rb.elementCount →
      ringbuffer_insert true rb index v = some (r, rb2) →
      rb2.buffer_size = 2 * rb.buffer_size) ∧
    (∀ (rb : ringbuffer_t) (index : Nat) (r : Int) (rb2 : ringbuffer_t),
      Wf rb → index < rb.elementCount →
      rb.elementCount - 1 < rb.buffer_size / 8 →
      ringbuffer_del true rb index = some (r, rb2) →
      rb2.buffer_size = max (rb.buffer_size / 2) RINGBUFFER_MIN_BUFFER_SIZE) := by
  refine ⟨fun v => rfl, ?_, ?_⟩
  · intro rb index v r rb2 hwf hpos hfull hidx h
    obtain ⟨-, -, hsz⟩ := insert_true_full_shape rb index v r rb2 hfull hidx h
    obtain ⟨-, -, -, -, hmin⟩ := hwf
    have h8 : 8 ≤ rb.buffer_size := by
      rcases hmin with h0 | h8
      · omega
      · exact h8
    rw [hsz]
    unfold clampMin RINGBUFFER_MIN_BUFFER_SIZE
    rw [if_neg (by omega)]
    omega
  · intro rb index r rb2 hwf hidx hshr h
    exact (del_true_shrink_shape rb index r rb2 hidx hshr h).2

/-- C7 witness: the lifecycle applied at concrete states — first insert
into the empty buffer, a growing insert on `rbC7full`, and a shrinking
delete on `rbC7shrink`. -/
theorem c7_capacity_lifecycle_witness :
    ((ringbuffer_insert true ringbuffer_init 0 (some 5)).map
      (fun p => (p.1, p.2.buffer_size)) = some (0, 8)) ∧
    rbC7grown.buffer_size = 2 * rbC7full.buffer_size ∧
    rbC7shrunk.buffer_size =
      max (rbC7shrink.buffer_size / 2) RINGBUFFER_MIN_BUFFER_SIZE :=
  ⟨c7_capacity_lifecycle.1 (some 5),
   c7_capacity_lifecycle.2.1 rbC7full 8 (some 9) 0 rbC7grown (by decide)
     (by decide) (by decide) (by decide) (by decide),
   c7_capacity_lifecycle.2.2 rbC7shrink 0 0 rbC7shrunk (by decide) (by decide)
     (by decide) (by decide)⟩

/-- C8 (scenario A): starting from the freshly initialized buffer with a
succeeding allocator, appending 1, 2, 3 and then inserting 99 at index 1
succeeds with element count 4 and logical contents `[1, 99, 2, 3]`. -/
theorem c8_scenario_append_append_append_insert :
    ((ringbuffer_append true ringbuffer_init (some 1)).bind fun p1 =>
      (ringbuffer_append true p1.2 (some 2)).bind fun p2 =>
      (ringbuffer_append true p2.2 (some 3)).bind fun p3 =>
      (ringbuffer_insert true p3.2 1 (some 99)).map fun p4 =>
        (p4.1, p4.2.elementCount, ringbuffer_toList p4.2)) =
      some (0, 4, [some 1, some 99, some 2, some 3]) := by decide

/-- C9: `ringbuffer_set index v` on a well-formed buffer fails with `-1`
and no change at all (and releases nothing) when `index ≥ count`; when
`index < count` it succeeds, the released reference is exactly the prior
occupant of virtual index `index`, the new occupant is `v`, and capacity,
start, count and every other virtual index are unchanged. -/
theorem c9_set_contract (rb : ringbuffer_t) (index : Nat) (v : Option Nat)
    (hwf : Wf rb) :
    (rb.elementCount ≤ index → ringbuffer_set rb index v = (-1, rb, [])) ∧
    (index < rb.elementCount →
      (ringbuffer_set rb index v).1 = 0 ∧
      (ringbuffer_set rb index v).2.2 = [ringbuffer_get rb index] ∧
      (ringbuffer_set rb index v).2.1.buffer_size = rb.buffer_size ∧
      (ringbuffer_set rb index v).2.1.start = rb.start ∧
      (ringbuffer_set rb index v).2.1.elementCount = rb.elementCount ∧
      ringbuffer_get (ringbuffer_set rb index v).2.1 index = v ∧
      ∀ j, j ≠ index → ringbuffer_get (ringbuffer_set rb index v).2.1 j =
        ringbuffer_get rb j) := by
  obtain ⟨hlen, hcnt, hstart, hzero, hmin⟩ := hwf
  constructor
  · intro h
    unfold ringbuffer_set
    rw [if_pos h]
  · intro h
    have hspos : 0 < rb.buffer_size := by omega
    have hstlt := hstart hspos
    have hplt : (rb.start + index) % rb.buffer_size < rb.buffer_size :=
      Nat.mod_lt _ hspos
    have hset : ringbuffer_set rb index v =
        (0, { rb with
            buffer := rb.buffer.set ((rb.start + index) % rb.buffer_size) v },
          [rb.buffer.getD ((rb.start + index) % rb.buffer_size) none]) := by
      unfold ringbuffer_set
      rw [if_neg (by omega)]
    rw [hset]
    refine ⟨rfl, ?_, rfl, rfl, rfl, ?_, ?_⟩
    · unfold ringbuffer_get
      rw [if_neg (by omega)]
    · unfold ringbuffer_get
      dsimp only
      rw [if_neg (by omega), getD_set_eq_ite, if_pos ⟨rfl, by omega⟩]
    · intro j hj
      unfold ringbuffer_get
      dsimp only
      by_cases hjc : rb.elementCount ≤ j
      · rw [if_pos hjc, if_pos hjc]
      · have hne : ¬((rb.start + index) % rb.buffer_size =
            (rb.start + j) % rb.buffer_size ∧
            (rb.start + j) % rb.buffer_size < rb.buffer.length) := by
          intro hcon
          exact hj (add_mod_left_inj rb.start rb.buffer_size j index
            (by omega) (by omega) hcon.1.symm)
        rw [if_neg hjc, if_neg hjc, getD_set_eq_ite, if_neg hne]

/-- C9 witness: the contract applied to the concrete wrapped state
`rbC9`. -/
theorem c9_set_contract_witness :
    ringbuffer_set rbC9 5 (some 77) = (-1, rbC9, []) ∧
    (ringbuffer_set rbC9 1 (some 77)).1 = 0 ∧
    (ringbuffer_set rbC9 1 (some 77)).2.2 = [ringbuffer_get rbC9 1] ∧
    ringbuffer_get (ringbuffer_set rbC9 1 (some 77)).2.1 1 = some 77 ∧
    ringbuffer_get (ringbuffer_set rbC9 1 (some 77)).2.1 0 =
      ringbuffer_get rbC9 0 := by
  have h1 := (c9_set_contract rbC9 5 (some 77) (by decide)).1 (by decide)
  have h2 := (c9_set_contract rbC9 1 (some 77) (by decide)).2 (by decide)
  exact ⟨h1, h2.1, h2.2.1, h2.2.2.2.2.2.1, h2.2.2.2.2.2.2 0 (by decide)⟩

/-- C10: with any allocator behaviour, `ringbuffer_append_ringbuffer` on a
destination and a source that are distinct buffers always terminates
(the model with fuel `other.elementCount + 1` always returns a result);
but called with one buffer as both destination and source (modelled by
`selfLoop`, where the loop bound is the destination's own element count)
and that buffer non-empty, the loop out-runs every amount of fuel under an
always-succeeding allocator: the call never terminates. -/
theorem c10_append_terminates_unless_aliased :
    (∀ (ok : Bool) (dest other : ringbuffer_t),
      ∃ p, ringbuffer_append_ringbuffer ok dest other = some p) ∧
    (∀ (rb : ringbuffer_t) (fuel : Nat), 0 < rb.elementCount →
      selfLoop true fuel rb 0 false = none) :=
  ⟨append_ringbuffer_isSome, fun rb fuel h => selfLoop_none fuel rb 0 h⟩

/-- C10 witness: the theorem applied to the concrete two-element state
`rbC10`. -/
theorem c10_append_terminates_unless_aliased_witness :
    (ringbuffer_append_ringbuffer true rbC10 rbC10).isSome = true ∧
    selfLoop true 5 rbC10 0 false = none := by
  constructor
  · obtain ⟨p, hp⟩ := c10_append_terminates_unless_aliased.1 true rbC10 rbC10
    rw [hp]
    rfl
  · exact c10_append_terminates_unless_aliased.2 rbC10 5 (by decide)

end RingbufferModel
